import Mathlib

/-!
Verification of the mcproto framed-transport library.

Shallow embedding conventions:
* Go byte streams are `List Nat` with every element < 256 by construction.
* Go `int32` values are `Int` (wrap-around is made explicit with `% 2^32`
  followed by a signed reinterpretation `toInt32`).
* Fallible Go functions return an error component (`Except` / `Option Err`);
  a Go runtime panic is a distinct constructor of the result type.
* The underlying `io.Reader` source is deterministic in-memory data
  (`bytes.Reader` semantics, as in the repository's tests): a read yields
  `min requested available` bytes and `io.EOF` exactly when no data is left.
-/

namespace McProto

/-- Error values of the library (kinds, not Go type names).  `eof` is Go's
plain `io.EOF`; `ioError` stands for an arbitrary non-EOF I/O error. -/
inductive Err where
  | eof
  | unexpectedEOF
  | varIntTooLong
  | negativeLength
  | invalidBool
  | packetTooBig
  | invalidFrameLength
  | notExhausted
  | invalidDataLength
  | zlibOverrun
  | zlibUnderrun
  | zlibTrailing
  | ioError
deriving DecidableEq, Repr

/-- Reinterpret a `uint32` bit pattern as Go's signed `int32`. -/
def toInt32 (n : Nat) : Int := if n < 2^31 then (n : Int) else (n : Int) - 2^32

/-- Go's `int32(n)` conversion of a nonnegative machine integer `n`. -/
def int32ofNat (n : Nat) : Int := toInt32 (n % 2^32)

/-- Loop body of `WriteVarInt` (src/packet/fields.go): emit the low seven
bits, shift, set the continuation bit when more bits remain.  The Go loop
terminates after at most five iterations on a `uint32` operand, so fuel 5
(supplied by `WriteVarInt`) makes the recursion structural without changing
the computed bytes. -/
def writeVarIntLoop : Nat → Nat → List Nat
  | 0, _ => []
  | fuel + 1, uv =>
    let b := uv % 128
    let uv2 := uv / 128
    if uv2 = 0 then [b] else (b + 128) :: writeVarIntLoop fuel uv2

/-- `WriteVarInt` (src/packet/fields.go): `uv := uint32(v)`, then base-128
little-endian digits with continuation bits. -/
def WriteVarInt (v : Int) : List Nat := writeVarIntLoop 5 ((v % 2^32).toNat)

/-- Outcome of a decode: the value, or the error Go returned. -/
inductive VRes where
  | ok (v : Int)
  | err (e : Err)
deriving DecidableEq, Repr

/-- Result of `ReadVarInt`: outcome, number of bytes consumed from the
reader, and the bytes left unread. -/
structure VarIntOut where
  res : VRes
  consumed : Nat
  rest : List Nat
deriving DecidableEq, Repr

/-- Loop of `ReadVarInt` (src/packet/fields.go).  `fuel` counts the
remaining iterations of Go's `for n := 0; n < 5; n++`; `v` is the `int32`
accumulator as a `uint32` bit pattern; `int32(segment) << shift` wraps
modulo `2^32`; an `io.EOF` from the reader is replaced by
`io.ErrUnexpectedEOF`. -/
def readVarIntCore : List Nat → Nat → Nat → Nat → VarIntOut
  | bs, _, _, 0 => ⟨.err .varIntTooLong, 0, bs⟩
  | [], _, _, _ + 1 => ⟨.err .unexpectedEOF, 0, []⟩
  | b :: rest, v, shift, fuel + 1 =>
    let segment := b % 128
    let v2 := v ||| ((segment <<< shift) % 2^32)
    if b < 128 then ⟨.ok (toInt32 v2), 1, rest⟩
    else
      let o := readVarIntCore rest v2 (shift + 7) fuel
      ⟨o.res, o.consumed + 1, o.rest⟩

/-- `ReadVarInt` (src/packet/fields.go) over an in-memory byte source. -/
def ReadVarInt (bs : List Nat) : VarIntOut := readVarIntCore bs 0 0 5

/-! ### Arithmetic facts about the VarInt codec -/
theorem toInt32_emod_cancel (v : Int) (h1 : -(2^31) ≤ v) (h2 : v < 2^31) :
    toInt32 ((v % 2^32).toNat) = v := by
  unfold toInt32
  split <;> omega

/-- Disjoint-bit `or` is addition: when `a` fits below bit `s`,
`a ||| (b <<< s) = a + b * 2^s`. -/
theorem lor_shiftLeft_eq_add {a : Nat} (b s : Nat) (h : a < 2^s) :
    a ||| (b <<< s) = a + b * 2^s := by
  apply Nat.eq_of_testBit_eq
  intro j
  have hadd : a + b * 2^s = 2^s * b + a := by ring
  rw [hadd, Nat.testBit_mul_pow_two_add b h j, Nat.testBit_lor,
    Nat.testBit_shiftLeft]
  by_cases hj : j < s
  · simp [hj, Nat.not_le.mpr hj]
  · have hjs : s ≤ j := Nat.le_of_not_lt hj
    have hb : a.testBit j = false :=
      Nat.testBit_lt_two_pow (Nat.lt_of_lt_of_le h (Nat.pow_le_pow_right (by omega) hjs))
    simp [hj, hjs, hb]

theorem writeVarIntLoop_succ (fuel uv : Nat) :
    writeVarIntLoop (fuel + 1) uv =
      if uv / 128 = 0 then [uv % 128]
      else (uv % 128 + 128) :: writeVarIntLoop fuel (uv / 128) := rfl

theorem readVarIntCore_cons (b : Nat) (rest : List Nat) (v shift fuel : Nat) :
    readVarIntCore (b :: rest) v shift (fuel + 1) =
      if b < 128 then
        ⟨.ok (toInt32 (v ||| (((b % 128) <<< shift) % 2^32))), 1, rest⟩
      else
        let o := readVarIntCore rest (v ||| (((b % 128) <<< shift) % 2^32))
          (shift + 7) fuel
        ⟨o.res, o.consumed + 1, o.rest⟩ := rfl

/-- The encoder emits between 1 and `fuel` bytes when the operand fits in
`7 * fuel` bits and `fuel` is positive. -/
theorem writeVarIntLoop_length :
    ∀ fuel uv, uv < 128^(fuel + 1) →
      1 ≤ (writeVarIntLoop (fuel + 1) uv).length ∧
        (writeVarIntLoop (fuel + 1) uv).length ≤ fuel + 1 := by
  intro fuel
  induction fuel with
  | zero =>
    intro uv h
    have : uv / 128 = 0 := by omega
    rw [writeVarIntLoop_succ, if_pos this]
    simp
  | succ fuel ih =>
    intro uv h
    rw [writeVarIntLoop_succ]
    by_cases hdiv : uv / 128 = 0
    · rw [if_pos hdiv]; simp
    · rw [if_neg hdiv]
      have h128 : uv / 128 < 128^(fuel + 1) := by
        have hp : 128^(fuel + 1 + 1) = 128^(fuel + 1) * 128 := pow_succ 128 (fuel + 1)
        omega
      have := ih (uv / 128) h128
      simp only [List.length_cons]
      omega

/-- Round-trip of the VarInt loops: decoding the encoding of `uv` on top of
an accumulator `v0` that occupies only the bits below `shift` adds
`uv * 2^shift`, consumes exactly the encoded bytes, and leaves the trailing
stream untouched. -/
theorem readVarIntCore_writeVarIntLoop :
    ∀ fuel uv v0 shift rest, uv < 128^(fuel + 1) → v0 < 2^shift →
      uv * 2^shift < 2^32 →
      readVarIntCore (writeVarIntLoop (fuel + 1) uv ++ rest) v0 shift (fuel + 1) =
        ⟨.ok (toInt32 (v0 + uv * 2^shift)),
          (writeVarIntLoop (fuel + 1) uv).length, rest⟩ := by
  intro fuel
  induction fuel with
  | zero =>
    intro uv v0 shift rest h128 hv0 hlt
    have huv : uv < 128 := by simpa using h128
    have hdiv : uv / 128 = 0 := Nat.div_eq_of_lt huv
    have hmod : uv % 128 = uv := Nat.mod_eq_of_lt huv
    rw [writeVarIntLoop_succ, if_pos hdiv, hmod]
    simp only [List.cons_append, List.nil_append, List.length_cons,
      List.length_nil]
    rw [readVarIntCore_cons, if_pos huv, hmod]
    have hms : (uv <<< shift) % 2^32 = uv <<< shift := by
      rw [Nat.shiftLeft_eq]; exact Nat.mod_eq_of_lt hlt
    rw [hms, lor_shiftLeft_eq_add uv shift hv0]
  | succ fuel ih =>
    intro uv v0 shift rest h128 hv0 hlt
    by_cases hdiv : uv / 128 = 0
    · have huv : uv < 128 := by omega
      have hmod : uv % 128 = uv := Nat.mod_eq_of_lt huv
      rw [writeVarIntLoop_succ, if_pos hdiv, hmod]
      simp only [List.cons_append, List.nil_append, List.length_cons,
        List.length_nil]
      rw [readVarIntCore_cons, if_pos huv, hmod]
      have hms : (uv <<< shift) % 2^32 = uv <<< shift := by
        rw [Nat.shiftLeft_eq]; exact Nat.mod_eq_of_lt hlt
      rw [hms, lor_shiftLeft_eq_add uv shift hv0]
    · have hmodlt : uv % 128 < 128 := Nat.mod_lt uv (by omega)
      have hd128 : uv % 128 * 2^shift < 2^32 := by
        have h1 : uv % 128 ≤ uv := Nat.mod_le uv 128
        have h2 := Nat.mul_le_mul_right (2^shift) h1
        omega
      have hseg : (uv % 128 + 128) % 128 = uv % 128 := by omega
      have hms : ((uv % 128) <<< shift) % 2^32 = (uv % 128) <<< shift := by
        rw [Nat.shiftLeft_eq]; exact Nat.mod_eq_of_lt hd128
      have hlor : v0 ||| ((uv % 128) <<< shift) = v0 + uv % 128 * 2^shift := by
        rw [lor_shiftLeft_eq_add (uv % 128) shift hv0]
      have hv0' : v0 + uv % 128 * 2^shift < 2^(shift + 7) := by
        have h2 : uv % 128 * 2^shift ≤ 127 * 2^shift :=
          Nat.mul_le_mul_right (2^shift) (by omega)
        have h3 : 2^(shift + 7) = 128 * 2^shift := by
          rw [pow_add]; ring
        rw [h3]; linarith
      have h128' : uv / 128 < 128^(fuel + 1) := by
        have hp : 128^(fuel + 1 + 1) = 128^(fuel + 1) * 128 := pow_succ 128 (fuel + 1)
        omega
      have hlt' : uv / 128 * 2^(shift + 7) < 2^32 := by
        have h3 : 2^(shift + 7) = 2^shift * 128 := by
          rw [pow_add]; norm_num
        calc uv / 128 * 2^(shift + 7) = uv / 128 * 128 * 2^shift := by
              rw [h3]; ring
          _ ≤ uv * 2^shift := by
              exact Nat.mul_le_mul_right (2^shift) (Nat.div_mul_le_self uv 128)
          _ < 2^32 := hlt
      rw [writeVarIntLoop_succ, if_neg hdiv]
      simp only [List.cons_append, List.length_cons]
      rw [readVarIntCore_cons, if_neg (by omega)]
      simp only [hseg, hms, hlor]
      rw [ih (uv / 128) (v0 + uv % 128 * 2^shift) (shift + 7) rest h128' hv0' hlt']
      have harith : v0 + uv % 128 * 2^shift + uv / 128 * 2^(shift + 7) =
          v0 + uv * 2^shift := by
        have h3 : 2^(shift + 7) = 2^shift * 128 := by
          rw [pow_add]; norm_num
        rw [h3]
        have hmd : uv % 128 + 128 * (uv / 128) = uv := Nat.mod_add_div uv 128
        nlinarith [hmd]
      rw [harith]

/-- `ReadVarInt` inverts `WriteVarInt` on every `int32`, consuming exactly
the encoded bytes. -/
theorem readVarInt_writeVarInt (v : Int) (rest : List Nat)
    (h1 : -(2^31) ≤ v) (h2 : v < 2^31) :
    ReadVarInt (WriteVarInt v ++ rest) =
      ⟨.ok v, (WriteVarInt v).length, rest⟩ := by
  unfold ReadVarInt WriteVarInt
  have huv : (v % 2^32).toNat < 2^32 := by omega
  have h128 : (v % 2^32).toNat < 128^(4 + 1) := by
    have : (128:Nat)^5 = 2^35 := by norm_num
    omega
  have hr := readVarIntCore_writeVarIntLoop 4 ((v % 2^32).toNat) 0 0 rest
    h128 (by norm_num) (by simpa using huv)
  simp only [pow_zero, Nat.mul_one, Nat.zero_add] at hr
  rw [toInt32_emod_cancel v h1 h2] at hr
  exact hr

/-! ### Position codec (src/packet/fields.go) -/

/-- `Position` (src/packet/fields.go): `X int32`, `Y int16`, `Z int32`. -/
structure Position where
  X : Int
  Y : Int
  Z : Int
deriving DecidableEq, Repr

/-- Big-endian bytes of a `uint64`, as written by
`binary.Write(w, binary.BigEndian, packed)`. -/
def beBytes8 (n : Nat) : List Nat :=
  [n >>> 56 % 256, n >>> 48 % 256, n >>> 40 % 256, n >>> 32 % 256,
   n >>> 24 % 256, n >>> 16 % 256, n >>> 8 % 256, n % 256]

/-- `binary.BigEndian.Uint64` over a byte list. -/
def beToNat (bs : List Nat) : Nat := bs.foldl (fun acc b => acc * 256 + b) 0

/-- `WritePosition` (src/packet/fields.go).  Go's two's-complement
`v.X & 0x3FFFFFF` on an `int32` keeps the low 26 bits of the bit pattern,
which is `X % 2^26` with a nonnegative remainder; likewise for `Z` and for
`Y & 0xFFF` on an `int16`. -/
def WritePosition (v : Position) : List Nat :=
  let packed := (v.X % 2^26).toNat <<< 38 ||| (v.Z % 2^26).toNat <<< 12 |||
    (v.Y % 2^12).toNat
  beBytes8 packed

/-- Result of `ReadPosition`. -/
inductive PosOut where
  | ok (v : Position) (rest : List Nat)
  | err (e : Err)
deriving DecidableEq, Repr

/-- `ReadPosition` (src/packet/fields.go): `readN(r, 8)` (`io.ReadFull`
returns `io.EOF` when nothing was read and `io.ErrUnexpectedEOF` on a
partial read), then field extraction by shift and mask — note the Go code
converts each extracted field with a plain unsigned-in-range cast. -/
def ReadPosition (bs : List Nat) : PosOut :=
  if bs.length < 8 then .err (if bs.length = 0 then .eof else .unexpectedEOF)
  else
    let packed := beToNat (bs.take 8)
    .ok ⟨(packed >>> 38 &&& 0x3FFFFFF : Nat), (packed &&& 0xFFF : Nat),
      (packed >>> 12 &&& 0x3FFFFFF : Nat)⟩ (bs.drop 8)

/-! ### PrefixedArray codec (src/packet/fields.go) -/

/-- Result of `ReadPrefixedArray`: a Go runtime panic is a distinct
outcome. -/
inductive ArrOut (α : Type) where
  | ok (v : List α) (rest : List Nat)
  | err (e : Err) (rest : List Nat)
  | panicked (rest : List Nat)
deriving DecidableEq, Repr

/-- The element loop of `ReadPrefixedArray`: `count` calls of the element
reader, upgrading a plain `io.EOF` to `io.ErrUnexpectedEOF`. -/
def readElems {α : Type} (read : List Nat → Except Err (α × List Nat)) :
    Nat → List Nat → Except Err (List α) × List Nat
  | 0, bs => (.ok [], bs)
  | n + 1, bs =>
    match read bs with
    | .error e => (.error (if e = .eof then .unexpectedEOF else e), bs)
    | .ok (x, bs2) =>
      match readElems read n bs2 with
      | (.error e, r) => (.error e, r)
      | (.ok xs, r) => (.ok (x :: xs), r)

/-- `ReadPrefixedArray` (src/packet/fields.go): VarInt count, then
`v = make([]T, length)` — which panics at runtime when `length` is
negative (`makeslice: len out of range`); there is no negative-count
check in the source — then the element loop. -/
def ReadPrefixedArray {α : Type} (read : List Nat → Except Err (α × List Nat))
    (bs : List Nat) : ArrOut α :=
  let o := ReadVarInt bs
  match o.res with
  | .err e => .err e o.rest
  | .ok length =>
    if length < 0 then .panicked o.rest
    else
      match readElems read length.toNat o.rest with
      | (.error e, r) => .err e r
      | (.ok xs, r) => .ok xs r

/-- `ReadByte` of an in-memory reader (used as the element reader):
`io.EOF` when the data is exhausted. -/
def readByteElem (bs : List Nat) : Except Err (Nat × List Nat) :=
  match bs with
  | [] => .error .eof
  | b :: rest => .ok (b, rest)

/-! ### FrameReader (src/frame.go) -/

/-- `FrameReader` (src/frame.go): a bounded view over the source.  The
source is in-memory data (`bytes.Reader` semantics). -/
structure FrameReader where
  src : List Nat
  remaining : Int
deriving DecidableEq, Repr

/-- `FrameReader.Read` (src/frame.go): request `plen` bytes; the request is
capped at `remaining`; the source yields what it has (`io.EOF` only when it
is empty); `remaining` drops by the bytes actually read; an `io.EOF` seen
while `remaining > 0` is upgraded to `io.ErrUnexpectedEOF`. -/
def FrameReader.read (f : FrameReader) (plen : Nat) :
    (List Nat × Option Err) × FrameReader :=
  if f.remaining ≤ 0 then (([], some .eof), f)
  else
    let cap := min plen f.remaining.toNat
    let taken := f.src.take cap
    let srcErr : Option Err := if f.src.isEmpty ∧ 0 < cap then some .eof else none
    let rem2 := f.remaining - taken.length
    let err := if srcErr = some .eof ∧ 0 < rem2 then some Err.unexpectedEOF else srcErr
    ((taken, err), ⟨f.src.drop cap, rem2⟩)

/-- `FrameReader.ReadByte` (src/frame.go), byte-reader fast path (the
in-memory source supports byte-wise reads): no decrement on error, and an
`io.EOF` with `remaining > 0` upgrades to `io.ErrUnexpectedEOF`. -/
def FrameReader.readByte (f : FrameReader) : (Option Nat × Option Err) × FrameReader :=
  if f.remaining ≤ 0 then ((none, some .eof), f)
  else
    match f.src with
    | [] => ((none, some .unexpectedEOF), f)
    | b :: rest => ((some b, none), ⟨rest, f.remaining - 1⟩)

/-- `FrameReader.Next` (src/frame.go).  `packet.ReadVarIntFromReader` is
not under src/ (only its callers are); per the spec (§3 VarInt, §4.2) it is
the VarInt decoder reading bytes directly from the underlying source. -/
def FrameReader.next (f : FrameReader) : VRes × FrameReader :=
  if 0 < f.remaining then (.err .notExhausted, f)
  else
    match ReadVarInt f.src with
    | ⟨.err e, _, rest⟩ => (.err e, ⟨rest, f.remaining⟩)
    | ⟨.ok length, _, rest⟩ =>
      if 0 < length then (.ok length, ⟨rest, length⟩)
      else (.err .invalidFrameLength, ⟨rest, f.remaining⟩)

/-- `FrameReader.Skip` (src/frame.go): `io.CopyN(io.Discard, f, remaining)`.
Over the in-memory source the copy loop consumes
`min remaining (length of src)` bytes through `FrameReader.Read`; a short
source surfaces the upgraded `UnexpectedEOF`; a non-positive `remaining`
copies nothing. -/
def FrameReader.skip (f : FrameReader) : (Int × Option Err) × FrameReader :=
  if f.remaining ≤ 0 then ((0, none), f)
  else
    let k := min f.remaining.toNat f.src.length
    let rem2 := f.remaining - k
    let err : Option Err := if 0 < rem2 then some .unexpectedEOF else none
    (((k : Int), err), ⟨f.src.drop k, rem2⟩)

/-! ### Payload readers (src/frame.go) -/

/-- `plainPayload.Close` (src/frame.go): `NotExhausted` iff frame bytes
remain. -/
def plainClose (f : FrameReader) : Option Err :=
  if 0 < f.remaining then some .notExhausted else none

/-- `io.ReadAll` over a plain payload reader: repeated `FrameReader.Read`
until the reader reports `io.EOF` (which `ReadAll` treats as success).
Over the in-memory source this collects `min remaining (length of src)`
bytes; a source shorter than the declared frame surfaces the upgraded
`UnexpectedEOF`. -/
def plainReadAll (f : FrameReader) : (List Nat × Option Err) × FrameReader :=
  if f.remaining ≤ 0 then (([], none), f)
  else
    let k := min f.remaining.toNat f.src.length
    let rem2 := f.remaining - k
    let err : Option Err := if 0 < rem2 then some .unexpectedEOF else none
    ((f.src.take k, err), ⟨f.src.drop k, rem2⟩)

/-- Outcome of the probe read `p.zr.Read(buf[:])` in
`compressedPayload.Close`: bytes returned and error. -/
structure ZlibProbe where
  n : Nat
  err : Option Err
deriving DecidableEq, Repr

/-- `compressedPayload.Close` (src/frame.go), as a function of the state it
inspects: its own `remaining`, the probe read's outcome, the underlying
frame reader's `remaining`, and the result of `p.zr.Close()`. -/
def compressedClose (remaining : Int) (probe : ZlibProbe) (frRemaining : Int)
    (zrClose : Option Err) : Option Err :=
  if 0 < remaining then some .notExhausted
  else if probe.err = none ∨ 0 < probe.n then some .zlibOverrun
  else if probe.err ≠ some .eof then probe.err
  else if 0 < frRemaining then some .zlibTrailing
  else zrClose

/-! ### Transport (src/transport.go, first iteration) -/

/-- `Transport` (src/transport.go): the frame reader bound to the source,
the mutable compression threshold, and the configured limits. -/
structure Transport where
  fReader : FrameReader
  compressionThreshold : Int
  maxPacketLen : Int
  maxDecompressedLen : Int
deriving DecidableEq, Repr

/-- `packet.ReadVarIntFromReader(&t.fReader)`: the VarInt loop pulling its
bytes through the frame reader (so the frame's `remaining` drops as the
prefix is consumed). -/
def readVarIntFRCore : FrameReader → Nat → Nat → Nat → VRes × FrameReader
  | f, _, _, 0 => (.err .varIntTooLong, f)
  | f, v, shift, fuel + 1 =>
    match f.readByte with
    | ((some b, _), f2) =>
      let segment := b % 128
      let v2 := v ||| ((segment <<< shift) % 2^32)
      if b < 128 then (.ok (toInt32 v2), f2)
      else readVarIntFRCore f2 v2 (shift + 7) fuel
    | ((none, some e), f2) => (.err (if e = .eof then .unexpectedEOF else e), f2)
    | ((none, none), f2) => (.err .unexpectedEOF, f2)

/-- Result of `Transport.Recv`: a plain payload reader over the transport's
frame reader, an error, or the unimplemented-compression panic. -/
inductive RecvOut where
  | payload
  | err (e : Err)
  | panicked
deriving DecidableEq, Repr

/-- `Transport.Recv` (src/transport.go, first iteration): frame prefix via
`Next`, the `MaxPacketLen` check, then — only when compression is on — the
declared-uncompressed-length VarInt read *through the frame reader* with
its `MaxDecompressedLen` check (`decompressedLen > 0` then hits
`panic("not implemented")`) and the negative-length check. -/
def Transport.recv (t : Transport) : RecvOut × Transport :=
  match t.fReader.next with
  | (.err e, f1) => (.err e, { t with fReader := f1 })
  | (.ok frameLength, f1) =>
    if t.maxPacketLen < frameLength then (.err .packetTooBig, { t with fReader := f1 })
    else if 0 ≤ t.compressionThreshold then
      match readVarIntFRCore f1 0 0 5 with
      | (.err e, f2) => (.err e, { t with fReader := f2 })
      | (.ok decompressedLen, f2) =>
        if 0 < decompressedLen then
          if t.maxDecompressedLen < decompressedLen then
            (.err .packetTooBig, { t with fReader := f2 })
          else (.panicked, { t with fReader := f2 })
        else if decompressedLen < 0 then
          (.err .invalidDataLength, { t with fReader := f2 })
        else (.payload, { t with fReader := f2 })
    else (.payload, { t with fReader := f1 })

/-- `Transport.Send` (src/transport.go, first iteration): a VarInt length
prefix, then the raw payload bytes, written to the sink.  The compression
branch is `panic("not implemented")`, represented by `none`. -/
def Transport.send (t : Transport) (b : List Nat) : Option (List Nat) :=
  if 0 ≤ t.compressionThreshold then none
  else some (WriteVarInt (int32ofNat b.length) ++ b)

/-- Parse a byte stream as consecutive frames (VarInt length prefix plus
that many payload bytes); used to state that one `Send` puts exactly one
frame on the wire. -/
def frames (bs : List Nat) : Nat → Option (List (List Nat))
  | 0 => if bs = [] then some [] else none
  | fuel + 1 =>
    if bs = [] then some []
    else
      let o := ReadVarInt bs
      match o.res with
      | .err _ => none
      | .ok len =>
        if 0 < len ∧ len ≤ (o.rest.length : Int) then
          match frames (o.rest.drop len.toNat) fuel with
          | some fs => some (o.rest.take len.toNat :: fs)
          | none => none
        else none

/-! ### Compressed transport, modelled from the spec

The compression wiring of the transport is code of this repository that is
missing from src/: both transport iterations there read
`panic("not implemented")` on the compressed paths, while the tests for the
implemented version survive (the unnamed transport test file,
`TestTransport_Compressed*`).  The definitions below follow the spec,
§4.4 Send steps 2–4 and §4.4 Recv. -/

/-- Result of a receive that yields payload bytes. -/
inductive BytesOut where
  | ok (v : List Nat)
  | err (e : Err)
deriving DecidableEq, Repr

/-- Modelled from the spec: `Transport.Send` with compression enabled
(§4.4 Send, steps 3–4).  `deflate` abstracts the zlib writer. -/
def sendCompressed (deflate : List Nat → List Nat) (threshold : Int)
    (b : List Nat) : List Nat :=
  if threshold ≤ (b.length : Int) then
    let scratch := WriteVarInt (int32ofNat b.length) ++ deflate b
    WriteVarInt (int32ofNat scratch.length) ++ scratch
  else
    WriteVarInt (int32ofNat (b.length + 1)) ++ 0 :: b

/-- Modelled from the spec: `Transport.Recv` with compression enabled
(§4.4 Recv) followed by read-all, over one wire frame.  `inflate`
abstracts the zlib reader; `none` stands for a corrupt stream. -/
def recvCompressed (inflate : List Nat → Option (List Nat))
    (maxPacketLen maxDecompressedLen : Int) (wire : List Nat) : BytesOut :=
  let o := ReadVarInt wire
  match o.res with
  | .err e => .err e
  | .ok frameLen =>
    if frameLen ≤ 0 then .err .invalidFrameLength
    else if maxPacketLen < frameLen then .err .packetTooBig
    else if (o.rest.length : Int) < frameLen then .err .unexpectedEOF
    else
      let frame := o.rest.take frameLen.toNat
      let o2 := ReadVarInt frame
      match o2.res with
      | .err e => .err e
      | .ok dlen =>
        if 0 < dlen then
          if maxDecompressedLen < dlen then .err .packetTooBig
          else
            match inflate o2.rest with
            | none => .err .zlibUnderrun
            | some out =>
              if (out.length : Int) = dlen then .ok out
              else if (out.length : Int) < dlen then .err .zlibUnderrun
              else .err .zlibOverrun
        else if dlen < 0 then .err .invalidDataLength
        else .ok o2.rest

/-- A minimal codec obeying the zlib reader/writer contract assumed in the
proofs: a two-byte header (zlib writes `0x78 0x9c`) followed by the raw
data.  Like zlib, it compresses the empty payload to a nonempty stream. -/
def deflateModel (bs : List Nat) : List Nat := 120 :: 156 :: bs

/-- Inverse of `deflateModel`; `none` on a stream it did not produce. -/
def inflateModel : List Nat → Option (List Nat)
  | 120 :: 156 :: rest => some rest
  | _ => none

/-! ### Supporting lemmas -/

theorem readVarIntCore_zero (bs : List Nat) (v shift : Nat) :
    readVarIntCore bs v shift 0 = ⟨.err .varIntTooLong, 0, bs⟩ := by
  cases bs <;> rfl

theorem int32ofNat_small (n : Nat) (h : n < 2^31) : int32ofNat n = (n : Int) := by
  unfold int32ofNat toInt32
  have : n % 2^32 = n := Nat.mod_eq_of_lt (by omega)
  rw [this]
  omega

theorem readVarIntCore_res_ne_eof :
    ∀ fuel bs v shift, (readVarIntCore bs v shift fuel).res ≠ .err .eof
  | 0, bs, v, shift => by rw [readVarIntCore_zero]; simp
  | _ + 1, [], _, _ => by simp [readVarIntCore]
  | fuel + 1, b :: rest, v, shift => by
    rw [readVarIntCore_cons]
    split
    · simp
    · simpa using readVarIntCore_res_ne_eof fuel rest
        (v ||| (b % 128) <<< shift % 2^32) (shift + 7)

theorem writeVarInt_length (v : Int) :
    1 ≤ (WriteVarInt v).length ∧ (WriteVarInt v).length ≤ 5 := by
  unfold WriteVarInt
  have h128 : (v % 2^32).toNat < 128^(4 + 1) := by
    have h5 : (128:Nat)^5 = 2^35 := by norm_num
    omega
  exact writeVarIntLoop_length 4 ((v % 2^32).toNat) h128

/-! ### Claim theorems -/

/-- Claim C5: for every 32-bit signed integer `v`, decoding the bytes
produced by the VarInt encoder yields `v` again, and the decoder consumes
exactly the encoded length — between 1 and 5 bytes — from the reader,
leaving the trailing stream untouched. -/
theorem varint_roundtrip (v : Int) (rest : List Nat)
    (h1 : -(2^31) ≤ v) (h2 : v < 2^31) :
    ReadVarInt (WriteVarInt v ++ rest) = ⟨.ok v, (WriteVarInt v).length, rest⟩ ∧
      1 ≤ (WriteVarInt v).length ∧ (WriteVarInt v).length ≤ 5 :=
  ⟨readVarInt_writeVarInt v rest h1 h2, writeVarInt_length v⟩

/-- Witness for C5 at `v = -1`. -/
theorem varint_roundtrip_witness :
    -(2^31) ≤ (-1 : Int) ∧ (-1 : Int) < 2^31 ∧
      ReadVarInt (WriteVarInt (-1) ++ [9]) =
        ⟨.ok (-1), (WriteVarInt (-1)).length, [9]⟩ :=
  ⟨by norm_num, by norm_num,
    (varint_roundtrip (-1) [9] (by norm_num) (by norm_num)).1⟩

/-- Claim C6: every 32-bit signed integer encodes as a VarInt of at most
five bytes, and decoding any input whose first five bytes all carry the
continuation bit fails with exactly `VarIntTooLong`, after consuming five
bytes. -/
theorem varint_bounds (v : Int) (b0 b1 b2 b3 b4 : Nat) (rest : List Nat)
    (h1 : -(2^31) ≤ v) (h2 : v < 2^31)
    (hc0 : 128 ≤ b0) (hc1 : 128 ≤ b1) (hc2 : 128 ≤ b2) (hc3 : 128 ≤ b3)
    (hc4 : 128 ≤ b4) :
    (WriteVarInt v).length ≤ 5 ∧
      ReadVarInt (b0 :: b1 :: b2 :: b3 :: b4 :: rest) =
        ⟨.err .varIntTooLong, 5, rest⟩ := by
  refine ⟨(writeVarInt_length v).2, ?_⟩
  unfold ReadVarInt
  rw [readVarIntCore_cons, if_neg (by omega)]
  rw [readVarIntCore_cons, if_neg (by omega)]
  rw [readVarIntCore_cons, if_neg (by omega)]
  rw [readVarIntCore_cons, if_neg (by omega)]
  rw [readVarIntCore_cons, if_neg (by omega)]
  rw [readVarIntCore_zero]

/-- Witness for C6 at `v = -1` and five `0xff` bytes. -/
theorem varint_bounds_witness :
    (WriteVarInt (-1)).length ≤ 5 ∧
      ReadVarInt [255, 255, 255, 255, 255, 1] = ⟨.err .varIntTooLong, 5, [1]⟩ :=
  varint_bounds (-1) 255 255 255 255 255 [1] (by norm_num) (by norm_num)
    (by norm_num) (by norm_num) (by norm_num) (by norm_num) (by norm_num)

/-- Claim C10: `ReadVarInt` never surfaces a plain `io.EOF`; in particular
an already-exhausted source yields `UnexpectedEOF` with nothing consumed,
so callers cannot tell a clean end-of-stream from a truncated value. -/
theorem varint_no_plain_eof :
    (∀ bs : List Nat, (ReadVarInt bs).res ≠ .err .eof) ∧
      ReadVarInt [] = ⟨.err .unexpectedEOF, 0, []⟩ :=
  ⟨fun bs => readVarIntCore_res_ne_eof 5 bs 0 0, rfl⟩

/-- Witness for C10: instance of the no-plain-EOF statement at `[5]`. -/
theorem varint_no_plain_eof_witness :
    ReadVarInt [] = ⟨.err .unexpectedEOF, 0, []⟩ ∧
      (ReadVarInt [5]).res ≠ .err .eof :=
  ⟨varint_no_plain_eof.2, varint_no_plain_eof.1 [5]⟩

/-- Claim C7 (code bug): on a count prefix decoding to `-1` (bytes
`ff ff ff ff 0f`), `ReadPrefixedArray` does not return `NegativeLength`
— the source has no negative-count check — it reaches
`make([]T, length)` with a negative length, which is a Go runtime panic,
before reading any element. -/
theorem readPrefixedArray_negative_count_panics :
    (ReadVarInt [255, 255, 255, 255, 15]).res = .ok (-1) ∧
      ReadPrefixedArray readByteElem [255, 255, 255, 255, 15] = .panicked [] ∧
      ReadPrefixedArray readByteElem [255, 255, 255, 255, 15] ≠
        .err .negativeLength [] := by decide

/-- Claim C8 (code bug): the in-range negative position `X = -1` does not
round-trip: `WritePosition` packs the two's-complement 26-bit field, but
`ReadPosition` extracts it without sign extension and returns
`X = 67108863`.  Exactly 8 bytes are written and read. -/
theorem position_roundtrip_fails_on_negative :
    (WritePosition ⟨-1, 0, 0⟩).length = 8 ∧
      ReadPosition (WritePosition ⟨-1, 0, 0⟩) = .ok ⟨67108863, 0, 0⟩ [] ∧
      (Position.mk 67108863 0 0).X ≠ (-1 : Int) := by decide

/-- Claim C4: `compressedPayload.Close` with `remaining = 0` probes the
zlib stream for one byte and prioritises: `ZlibPayloadOverrun` when the
probe returns data or a nil error; then the probe's own non-EOF error;
then `ZlibTrailingData` when frame bytes remain after a clean end of
stream; otherwise it returns the zlib reader's `Close` result, which is
nil after a cleanly ended stream.  With `remaining > 0` it returns
`NotExhausted` without probing. -/
theorem compressedClose_priority (remaining : Int) (probe : ZlibProbe)
    (frRemaining : Int) (zrClose : Option Err) (e : Err) :
    (0 < remaining →
      compressedClose remaining probe frRemaining zrClose = some .notExhausted) ∧
    (remaining = 0 → (probe.err = none ∨ 0 < probe.n) →
      compressedClose remaining probe frRemaining zrClose = some .zlibOverrun) ∧
    (remaining = 0 → probe.n = 0 → probe.err = some e → e ≠ .eof →
      compressedClose remaining probe frRemaining zrClose = some e) ∧
    (remaining = 0 → probe.n = 0 → probe.err = some .eof → 0 < frRemaining →
      compressedClose remaining probe frRemaining zrClose = some .zlibTrailing) ∧
    (remaining = 0 → probe.n = 0 → probe.err = some .eof → frRemaining ≤ 0 →
      zrClose = none →
      compressedClose remaining probe frRemaining zrClose = none) := by
  unfold compressedClose
  refine ⟨fun h => by rw [if_pos h], ?_, ?_, ?_, ?_⟩
  · intro h0 h
    rw [if_neg (by omega), if_pos h]
  · intro h0 hn he hne
    rw [if_neg (by omega), if_neg (by simp [he]; omega), if_pos (by simp [he, hne])]
    exact he ▸ rfl
  · intro h0 hn he hfr
    rw [if_neg (by omega), if_neg (by simp [he]; omega), if_neg (by simp [he]),
      if_pos hfr]
  · intro h0 hn he hfr hz
    rw [if_neg (by omega), if_neg (by simp [he]; omega), if_neg (by simp [he]),
      if_neg (by omega), hz]

/-- Witness for C4: the propagated non-EOF probe error at concrete
arguments. -/
theorem compressedClose_priority_witness :
    (0 : Int) = 0 ∧ (ZlibProbe.mk 0 (some .ioError)).n = 0 ∧
      compressedClose 0 ⟨0, some .ioError⟩ 0 none = some .ioError :=
  ⟨rfl, rfl,
    (compressedClose_priority 0 ⟨0, some .ioError⟩ 0 none .ioError).2.2.1
      rfl rfl rfl (by decide)⟩

/-- Claim C9: the frame reader's `remaining` counter never goes negative:
`Read`, `ReadByte`, `Skip` and `Next` all preserve `0 ≤ remaining`;
`Read` and `ReadByte` cap consumption at `remaining`; and `remaining`
reaches 0 exactly when all declared frame bytes have been consumed (each
operation decrements it by exactly the bytes it consumed). -/
theorem frameReader_remaining_invariant (f : FrameReader) (plen : Nat)
    (h : 0 ≤ f.remaining) :
    (0 ≤ ((f.read plen).2).remaining ∧
      (((f.read plen).1.1.length : Int) ≤ f.remaining) ∧
      ((f.read plen).2).remaining = f.remaining - (f.read plen).1.1.length ∧
      (((f.read plen).2).remaining = 0 ↔
        ((f.read plen).1.1.length : Int) = f.remaining)) ∧
    (0 ≤ (f.readByte.2).remaining ∧
      ((if (f.readByte.1.1).isSome then (1 : Int) else 0) ≤ f.remaining) ∧
      (f.readByte.2).remaining =
        f.remaining - (if (f.readByte.1.1).isSome then 1 else 0)) ∧
    (0 ≤ (f.skip.2).remaining ∧
      (f.skip.1.1 ≤ f.remaining) ∧
      (f.skip.2).remaining = f.remaining - f.skip.1.1 ∧
      ((f.skip.2).remaining = 0 ↔ f.skip.1.1 = f.remaining)) ∧
    (∀ L, f.next.1 = .ok L → ((f.next.2).remaining = L ∧ 0 < L)) ∧
    (∀ e, f.next.1 = .err e → (f.next.2).remaining = f.remaining) := by
  refine ⟨?_, ?_, ?_, ?_, ?_⟩
  · unfold FrameReader.read
    by_cases hr : f.remaining ≤ 0
    · simp only [if_pos hr, List.length_nil]
      refine ⟨?_, ?_, ?_, ?_⟩ <;> first | omega | trivial
    · simp only [if_neg hr, List.length_take]
      have hm : min (min plen f.remaining.toNat) f.src.length ≤
          f.remaining.toNat :=
        le_trans (Nat.min_le_left _ _) (Nat.min_le_right _ _)
      refine ⟨?_, ?_, ?_, ?_⟩ <;> first | omega | trivial
  · unfold FrameReader.readByte
    by_cases hr : f.remaining ≤ 0
    · simp only [if_pos hr, Option.isSome_none, Bool.false_eq_true, if_false]
      refine ⟨?_, ?_, ?_⟩ <;> first | omega | trivial
    · simp only [if_neg hr]
      match hs : f.src with
      | [] =>
        simp only [Option.isSome_none, Bool.false_eq_true, if_false]
        refine ⟨?_, ?_, ?_⟩ <;> first | omega | trivial
      | b :: rest =>
        simp only [Option.isSome_some, if_true]
        refine ⟨?_, ?_, ?_⟩ <;> first | omega | trivial
  · unfold FrameReader.skip
    by_cases hr : f.remaining ≤ 0
    · simp only [if_pos hr]
      refine ⟨?_, ?_, ?_, ?_⟩ <;> first | omega | trivial
    · simp only [if_neg hr]
      have hm : min f.remaining.toNat f.src.length ≤ f.remaining.toNat :=
        Nat.min_le_left _ _
      refine ⟨?_, ?_, ?_, ?_⟩ <;> first | omega | trivial
  · intro L hL
    by_cases hr : 0 < f.remaining
    · unfold FrameReader.next at hL
      rw [if_pos hr] at hL
      exact absurd hL (by simp)
    · unfold FrameReader.next at hL ⊢
      rw [if_neg hr] at hL ⊢
      rcases hv : ReadVarInt f.src with ⟨res, k, rest⟩
      rw [hv] at hL
      rcases res with len | e
      · simp only at hL ⊢
        by_cases hlen : 0 < len
        · rw [if_pos hlen] at hL ⊢
          simp only at hL
          cases hL
          exact ⟨rfl, hlen⟩
        · rw [if_neg hlen] at hL
          exact absurd hL (by simp)
      · exact absurd hL (by simp)
  · intro e he
    by_cases hr : 0 < f.remaining
    · unfold FrameReader.next
      rw [if_pos hr]
    · unfold FrameReader.next at he ⊢
      rw [if_neg hr] at he ⊢
      rcases hv : ReadVarInt f.src with ⟨res, k, rest⟩
      rw [hv] at he
      rcases res with len | e2
      · simp only at he ⊢
        by_cases hlen : 0 < len
        · rw [if_pos hlen] at he
          exact absurd he (by simp)
        · rw [if_neg hlen]
      · rfl

/-- Witness for C9 at a concrete frame reader state. -/
theorem frameReader_remaining_invariant_witness :
    (0 : Int) ≤ (FrameReader.mk [1, 2, 3] 2).remaining ∧
      0 ≤ (((FrameReader.mk [1, 2, 3] 2).read 5).2).remaining :=
  ⟨by decide, (frameReader_remaining_invariant ⟨[1, 2, 3], 2⟩ 5 (by decide)).1.1⟩

/-- Claim C3 counterexample: with compression enabled, a declared
uncompressed length that fails the `MaxDecompressedLen` check also makes
`Recv` return `PacketTooBig`, but only after the inner VarInt consumed a
frame byte: here the frame announces 11 bytes (`frameLen = 11`), yet the
frame reader is left with 10 pending. -/
theorem recv_packetTooBig_pending_counterexample :
    (ReadVarInt [11, 10, 0, 0, 0, 0, 0, 0, 0, 0, 0, 0]).res = .ok 11 ∧
      Transport.recv ⟨⟨[11, 10, 0, 0, 0, 0, 0, 0, 0, 0, 0, 0], 0⟩, 0, 100, 5⟩ =
        (.err .packetTooBig, ⟨⟨[0, 0, 0, 0, 0, 0, 0, 0, 0, 0], 10⟩, 0, 100, 5⟩) ∧
      (FrameReader.mk [0, 0, 0, 0, 0, 0, 0, 0, 0, 0] 10).remaining ≠ 11 := by
  decide

/-- A successful VarInt read through the frame reader consumed at least one
frame byte: the frame's `remaining` strictly drops. -/
theorem readVarIntFRCore_ok_remaining :
    ∀ fuel f v shift D f2, readVarIntFRCore f v shift fuel = (.ok D, f2) →
      f2.remaining < f.remaining := by
  intro fuel
  induction fuel with
  | zero =>
    intro f v shift D f2 h
    exact absurd h (by simp [readVarIntFRCore])
  | succ fuel ih =>
    intro f v shift D f2 h
    unfold readVarIntFRCore at h
    by_cases hr : f.remaining ≤ 0
    · have hby : f.readByte = ((none, some .eof), f) := by
        unfold FrameReader.readByte
        rw [if_pos hr]
      rw [hby] at h
      simp at h
    · match hs : f.src with
      | [] =>
        have hby : f.readByte = ((none, some .unexpectedEOF), f) := by
          unfold FrameReader.readByte
          rw [if_neg hr, hs]
        rw [hby] at h
        simp at h
      | b :: rest =>
        have hby : f.readByte = ((some b, none), ⟨rest, f.remaining - 1⟩) := by
          unfold FrameReader.readByte
          rw [if_neg hr, hs]
        rw [hby] at h
        simp only at h
        by_cases hb : b < 128
        · rw [if_pos hb] at h
          simp only [Prod.mk.injEq] at h
          rw [← h.2]
          simp only
          omega
        · rw [if_neg hb] at h
          have := ih ⟨rest, f.remaining - 1⟩ (v ||| (b % 128) <<< shift % 2^32)
            (shift + 7) D f2 h
          simp only at this
          omega

/-- Claim C3 (amended): when `Recv` fails the frame-length check with
`PacketTooBig`, the frame reader holds exactly `frameLen` pending bytes
(nothing consumed beyond the prefix); when compression is enabled and the
declared uncompressed length fails the `MaxDecompressedLen` check, `Recv`
also returns `PacketTooBig` but the pending count is `frameLen` minus the
inner VarInt's bytes — strictly fewer than `frameLen`; on
`InvalidFrameLength` the pending count is 0.  In each case the frame
reader's state is well defined, so the caller can realign. -/
theorem recv_error_pending_bytes (t : Transport) (L : Int) (k : Nat)
    (r1 : List Nat)
    (h0 : t.fReader.remaining = 0)
    (hv : ReadVarInt t.fReader.src = ⟨.ok L, k, r1⟩) :
    (0 < L → t.maxPacketLen < L →
      Transport.recv t = (.err .packetTooBig, { t with fReader := ⟨r1, L⟩ })) ∧
    (L ≤ 0 →
      (Transport.recv t).1 = .err .invalidFrameLength ∧
      (Transport.recv t).2.fReader.remaining = 0) ∧
    (∀ D f2, 0 < L → L ≤ t.maxPacketLen → 0 ≤ t.compressionThreshold →
      readVarIntFRCore ⟨r1, L⟩ 0 0 5 = (.ok D, f2) → 0 < D →
      t.maxDecompressedLen < D →
      Transport.recv t = (.err .packetTooBig, { t with fReader := f2 }) ∧
      f2.remaining < L) := by
  have hnext : t.fReader.next =
      (if 0 < L then (.ok L, ⟨r1, L⟩)
       else (.err .invalidFrameLength, ⟨r1, t.fReader.remaining⟩)) := by
    unfold FrameReader.next
    rw [h0, hv]
    simp
  refine ⟨?_, ?_, ?_⟩
  · intro hL hgt
    unfold Transport.recv
    rw [hnext, if_pos hL]
    simp only
    rw [if_pos hgt]
  · intro hL
    unfold Transport.recv
    rw [hnext, if_neg (by omega)]
    simp [h0]
  · intro D f2 hL hle hth hfr hD hmaxD
    unfold Transport.recv
    rw [hnext, if_pos hL]
    simp only
    rw [if_neg (by omega), if_pos hth, hfr]
    simp only
    rw [if_pos hD, if_pos hmaxD]
    exact ⟨rfl, by
      have := readVarIntFRCore_ok_remaining 5 ⟨r1, L⟩ 0 0 D f2 hfr
      simpa using this⟩

/-- Witness for C3 (amended) at a concrete over-long frame:
`maxPacketLen = 3`, declared frame length 5. -/
theorem recv_error_pending_bytes_witness :
    (FrameReader.mk [5, 1, 2, 3, 4, 5] 0).remaining = 0 ∧
      Transport.recv ⟨⟨[5, 1, 2, 3, 4, 5], 0⟩, -1, 3, 100⟩ =
        (.err .packetTooBig, ⟨⟨[1, 2, 3, 4, 5], 5⟩, -1, 3, 100⟩) :=
  ⟨rfl,
    (recv_error_pending_bytes ⟨⟨[5, 1, 2, 3, 4, 5], 0⟩, -1, 3, 100⟩ 5 1
      [1, 2, 3, 4, 5] rfl (by decide)).1 (by decide) (by decide)⟩

/-- Claim C1: with compression disabled, `Send(b)` writes exactly one frame
to the wire; `Recv` then yields a plain payload reader over the frame;
reading all payload bytes returns exactly `b` with no error; `Close`
succeeds; and the source is left positioned at the next frame's length
prefix (`future`), having consumed exactly the frame's bytes. -/
theorem plain_transport_roundtrip (t : Transport) (b wire future : List Nat)
    (hth : t.compressionThreshold = -1)
    (hmax : t.maxPacketLen < 2^31)
    (hlen : 0 < b.length) (hfit : (b.length : Int) ≤ t.maxPacketLen)
    (hsend : Transport.send t b = some wire)
    (hsrc : t.fReader.src = wire ++ future)
    (hrem : t.fReader.remaining = 0) :
    frames wire 1 = some [b] ∧
    Transport.recv t =
      (.payload, { t with fReader := ⟨b ++ future, (b.length : Int)⟩ }) ∧
    plainReadAll ⟨b ++ future, (b.length : Int)⟩ = ((b, none), ⟨future, 0⟩) ∧
    plainClose ⟨future, 0⟩ = none ∧
    wire.length = (WriteVarInt (b.length : Int)).length + b.length := by
  have hb31 : (b.length : Int) < 2^31 := lt_of_le_of_lt hfit hmax
  have hcast : int32ofNat b.length = (b.length : Int) :=
    int32ofNat_small b.length (by omega)
  have hwire : wire = WriteVarInt (b.length : Int) ++ b := by
    unfold Transport.send at hsend
    rw [if_neg (by omega)] at hsend
    rw [hcast] at hsend
    exact (Option.some_injective _ hsend).symm
  have hrt := readVarInt_writeVarInt (b.length : Int) (b ++ future)
    (by omega) hb31
  have hrtb := readVarInt_writeVarInt (b.length : Int) b (by omega) hb31
  refine ⟨?_, ?_, ?_, ?_, ?_⟩
  · unfold frames
    have hne : wire ≠ [] := by
      intro hC
      have := congrArg List.length hwire
      rw [hC] at this
      simp [List.length_append] at this
      have := (writeVarInt_length (b.length : Int)).1
      omega
    rw [if_neg hne, hwire, hrtb]
    simp only
    rw [if_pos (by constructor <;> omega)]
    have htake : b.take ((b.length : Int)).toNat = b := by
      simp [List.take_length]
    have hdrop : b.drop ((b.length : Int)).toNat = [] := by
      simp
    rw [htake, hdrop]
    rfl
  · have hnext : t.fReader.next = (.ok (b.length : Int), ⟨b ++ future, (b.length : Int)⟩) := by
      unfold FrameReader.next
      rw [hrem, hsrc, hwire, List.append_assoc, hrt]
      simp only [lt_irrefl, if_false]
      rw [if_pos (by omega)]
    unfold Transport.recv
    rw [hnext]
    simp only
    rw [if_neg (by omega), if_neg (by omega)]
  · unfold plainReadAll
    simp only
    rw [if_neg (by omega)]
    have hk : min ((b.length : Int)).toNat (b ++ future).length = b.length := by
      simp [List.length_append]
    rw [hk, List.take_left, List.drop_left]
    simp
  · rfl
  · rw [hwire]
    simp [List.length_append]

/-- Witness for C1 at `b = [1, 2, 3]` over an empty remainder stream. -/
theorem plain_transport_roundtrip_witness :
    Transport.send ⟨⟨[3, 1, 2, 3], 0⟩, -1, 100, 100⟩ [1, 2, 3] =
        some [3, 1, 2, 3] ∧
      frames [3, 1, 2, 3] 1 = some [[1, 2, 3]] ∧
      Transport.recv ⟨⟨[3, 1, 2, 3], 0⟩, -1, 100, 100⟩ =
        (.payload, ⟨⟨[1, 2, 3], 3⟩, -1, 100, 100⟩) :=
  ⟨by decide,
    (plain_transport_roundtrip ⟨⟨[3, 1, 2, 3], 0⟩, -1, 100, 100⟩ [1, 2, 3]
      [3, 1, 2, 3] [] rfl (by norm_num) (by norm_num) (by norm_num)
      (by decide) (by decide) rfl).1,
    by
      have := (plain_transport_roundtrip ⟨⟨[3, 1, 2, 3], 0⟩, -1, 100, 100⟩
        [1, 2, 3] [3, 1, 2, 3] [] rfl (by norm_num) (by norm_num) (by norm_num)
        (by decide) (by decide) rfl).2.1
      simpa using this⟩


/-- A single `0x00` byte decodes as the VarInt 0 (the uncompressed marker
of the compressed payload layout). -/
theorem readVarInt_zero_byte (bs : List Nat) : ReadVarInt (0 :: bs) = ⟨.ok 0, 1, bs⟩ := by
  unfold ReadVarInt
  rw [readVarIntCore_cons, if_pos (by norm_num)]
  simp [toInt32]

/-- Claim C2 (amended): with compression enabled (threshold `t ≥ 0`),
every NONEMPTY payload within the configured size limits round-trips
through the compressed transport — below the threshold via the single `0`
marker byte, at or above it through the zlib codec (abstracted by a
`deflate`/`inflate` pair that round-trips on `b`).  The empty payload is
excluded: at `t = 0` it fails (see the counterexample). -/
theorem compression_transparency (deflate : List Nat → List Nat)
    (inflate : List Nat → Option (List Nat)) (t maxP maxD : Int)
    (b : List Nat)
    (hz : inflate (deflate b) = some b)
    (ht : 0 ≤ t) (hb : 0 < b.length) (hb31 : (b.length : Int) < 2^31)
    (hmaxP : maxP < 2^31)
    (hbelow : (b.length : Int) < t → (b.length : Int) + 1 ≤ maxP)
    (habove : t ≤ (b.length : Int) →
      ((WriteVarInt (int32ofNat b.length) ++ deflate b).length : Int) ≤ maxP ∧
      (b.length : Int) ≤ maxD) :
    recvCompressed inflate maxP maxD (sendCompressed deflate t b) = .ok b := by
  have hcastL : int32ofNat b.length = (b.length : Int) :=
    int32ofNat_small b.length (by omega)
  unfold sendCompressed recvCompressed
  by_cases hcase : t ≤ (b.length : Int)
  · obtain ⟨hP, hD⟩ := habove hcase
    rw [if_pos hcase]
    simp only
    have hs1 : 1 ≤ (WriteVarInt (int32ofNat b.length)).length :=
      (writeVarInt_length _).1
    have hslen : 1 ≤ (WriteVarInt (int32ofNat b.length) ++ deflate b).length := by
      simp only [List.length_append]
      omega
    have hs31 : ((WriteVarInt (int32ofNat b.length) ++ deflate b).length : Int) < 2^31 :=
      lt_of_le_of_lt hP hmaxP
    have hcastS : int32ofNat (WriteVarInt (int32ofNat b.length) ++ deflate b).length =
        ((WriteVarInt (int32ofNat b.length) ++ deflate b).length : Int) :=
      int32ofNat_small _ (by omega)
    rw [hcastS]
    rw [readVarInt_writeVarInt _ _ (by omega) hs31]
    simp only
    rw [if_neg (by omega), if_neg (by omega), if_neg (by omega)]
    have htoNat : (((WriteVarInt (int32ofNat b.length) ++ deflate b).length : Int)).toNat =
        (WriteVarInt (int32ofNat b.length) ++ deflate b).length := by omega
    rw [htoNat, List.take_length]
    rw [hcastL, readVarInt_writeVarInt _ _ (by omega) hb31]
    simp only
    rw [if_pos (by omega), if_neg (by omega), hz]
    simp
  · rw [if_neg hcase]
    have hfit : (b.length : Int) + 1 ≤ maxP := hbelow (by omega)
    have hcast1 : int32ofNat (b.length + 1) = ((b.length + 1 : Nat) : Int) :=
      int32ofNat_small _ (by omega)
    rw [hcast1]
    rw [readVarInt_writeVarInt _ _ (by omega) (by push_cast; omega)]
    simp only
    rw [if_neg (by omega), if_neg (by omega),
      if_neg (by simp only [List.length_cons]; omega)]
    have htoNat : (((b.length + 1 : Nat) : Int)).toNat = (0 :: b).length := by
      simp
    rw [htoNat, List.take_length]
    rw [readVarInt_zero_byte]
    simp

/-- Witness for C2 (amended) with the model codec, `b = [7]`, threshold 0
(the at-or-above-threshold path). -/
theorem compression_transparency_witness :
    inflateModel (deflateModel [7]) = some [7] ∧ (0 : Int) ≤ 0 ∧
      recvCompressed inflateModel 100 100 (sendCompressed deflateModel 0 [7]) =
        .ok [7] :=
  ⟨by decide, by norm_num,
    compression_transparency deflateModel inflateModel 0 100 100 [7]
      (by decide) (by norm_num) (by decide) (by norm_num) (by norm_num)
      (by intro h; norm_num) (by intro h; exact ⟨by decide, by norm_num⟩)⟩

/-- Claim C2 counterexample: the empty payload at threshold 0 takes the
compressed path with declared uncompressed length 0, which the receiver
interprets as an *uncompressed* payload: it returns the raw zlib stream
bytes (here the model codec's 2-byte header) instead of the empty payload
— even though the codec itself round-trips the empty payload. -/
theorem compression_transparency_counterexample :
    inflateModel (deflateModel []) = some [] ∧
      sendCompressed deflateModel 0 [] = [3, 0, 120, 156] ∧
      recvCompressed inflateModel 100 100 (sendCompressed deflateModel 0 []) =
        .ok [120, 156] ∧
      BytesOut.ok [120, 156] ≠ BytesOut.ok ([] : List Nat) := by decide

end McProto
